import Mathlib

/-!
# Verification of the soroban-vault contract

Shallow embedding of the `zenith-protocols/soroban-vault` contract in Lean 4.

Conventions of the embedding:

* Rust `i128` arithmetic is modelled with unbounded `Int`; the fixed-point
  helpers of `soroban_fixed_point_math` (`fixed_mul_floor`, `fixed_mul_ceil`)
  are modelled as exact floor/ceiling division on `Int`.  At the call sites of
  `contract.rs` whose denominator is not guarded (the inlined conversions in
  `redeem` and `emergency_redeem`, dividing by `total_shares`), the host's
  division-by-zero trap is modelled explicitly (`fixedMulFloorChecked`).
* `u64` ledger timestamps are modelled as `Nat`.
* The host's per-call atomicity is modelled with `Except`: a failing call
  returns an error and produces no successor state.
* The two collaborator token contracts (the underlying asset and the share
  token) are modelled as ledgers, partitioned into the vault contract's own
  account and the aggregate of all external accounts.  A transfer, mint or
  burn fails on a negative amount or on insufficient balance of the debited
  account, exactly as the Stellar asset contract does.
-/

namespace SorobanVault

/-- Fixed-point scale, `SCALAR_7` in `src/math.rs`. -/
def SCALAR_7 : Int := 10000000

/-- `x.fixed_mul_floor(&e, &y, &d)`: `floor(x * y / d)`, for call sites whose
denominator is guarded by the source (the `Converter` branches of
`src/math.rs`) or is a nonzero constant.  For the unguarded divisions of
`src/contract.rs` use `fixedMulFloorChecked`, which models the host's
division-by-zero trap. -/
def fixedMulFloor (x y d : Int) : Int := (x * y).fdiv d

/-- `x.fixed_mul_ceil(&e, &y, &d)`: `ceil(x * y / d)` (for positive `d`). -/
def fixedMulCeil (x y d : Int) : Int := -((-(x * y)).fdiv d)

/-- `Converter::shares_from_tokens` from `src/math.rs`. -/
def shares_from_tokens (total_shares total_tokens tokens : Int) : Int :=
  if total_shares = 0 ∨ total_tokens = 0 then
    tokens
  else
    fixedMulFloor tokens total_shares total_tokens

/-- `Converter::tokens_from_shares` from `src/math.rs`. -/
def tokens_from_shares (total_shares total_tokens shares : Int) : Int :=
  if total_shares = 0 ∨ total_tokens = 0 then
    shares
  else
    fixedMulCeil shares total_tokens total_shares

/-- `Converter::redemption_value` from `src/math.rs`. -/
def redemption_value (total_shares total_tokens shares : Int) : Int :=
  if total_shares = 0 then
    0
  else
    fixedMulFloor shares total_tokens total_shares

/-- `calculate_penalty` from `src/math.rs`; `now` is the ledger timestamp
read from the environment. -/
def calculate_penalty (token_value : Int) (unlock_time lock_time : Nat)
    (penalty_rate : Int) (now : Nat) : Int :=
  if unlock_time ≤ now then
    0
  else
    fixedMulFloor token_value
      (fixedMulFloor penalty_rate ((unlock_time - now : Nat) : Int) (lock_time : Int))
      SCALAR_7

/-- `calculate_min_liquidity` from `src/math.rs`. -/
def calculate_min_liquidity (total_tokens min_liquidity_rate : Int) : Int :=
  if total_tokens = 0 then
    0
  else
    fixedMulCeil total_tokens min_liquidity_rate SCALAR_7

/-! ## Storage types (`src/storage.rs`) and errors (`src/errors.rs`, `src/contract.rs`)

`VaultError` collects every error discriminant raised by `src/contract.rs`
(`ZeroAmount`, `WithdrawalInProgress`, `WithdrawalLocked`, `InsufficientShares`,
`InvalidAmount`, `InsufficientVaultBalance`, `UnauthorizedStrategy`) together
with the failure modes of the collaborators: `MissingRequest` for the panicking
storage lookup of an absent redemption request, `NegativeAmount` /
`InsufficientBalance` for the token contracts' transfer/mint/burn failures,
and `DivisionByZero` for the host trap of an unguarded
`fixed_mul_floor` whose denominator is zero. -/

inductive VaultError where
  | ZeroAmount
  | InvalidAmount
  | WithdrawalInProgress
  | WithdrawalLocked
  | InsufficientShares
  | InsufficientVaultBalance
  | UnauthorizedStrategy
  | MissingRequest
  | NegativeAmount
  | InsufficientBalance
  | DivisionByZero
deriving DecidableEq, Repr

/-- `x.fixed_mul_floor(&e, &y, &d)` at a call site where the denominator may
be zero (the inlined conversions of `src/contract.rs` `redeem` and
`emergency_redeem`, dividing by `total_shares` without the `Converter`
guard): `soroban_fixed_point_math` then traps with a host division-by-zero
error aborting the call, modelled as the distinct `DivisionByZero` error. -/
def fixedMulFloorChecked (x y d : Int) : Except VaultError Int :=
  if d = 0 then .error .DivisionByZero
  else .ok (fixedMulFloor x y d)

/-- `RedemptionRequest` from `src/storage.rs` / `src/contract.rs`. -/
structure RedemptionRequest where
  shares : Int
  unlock_time : Nat
deriving DecidableEq, Repr

/-- `StrategyData` from `src/storage.rs` / `src/contract.rs`. -/
structure StrategyData where
  borrowed : Int
  net_impact : Int
deriving DecidableEq, Repr

/-- The persistent storage of the vault contract, together with the two
collaborator token ledgers.  Principals (owners, receivers, strategies) are
identified by `Nat`.  Each token ledger is partitioned into the vault
contract's own account (`vaultTokens`, `vaultShares`) and the aggregate of
every external account (`extTokens`, `extShares`); `shareSupply` is the share
token's total supply. -/
structure VaultState where
  total_shares : Int
  total_tokens : Int
  lock_time : Nat
  penalty_rate : Int
  min_liquidity_rate : Int
  strategies : List Nat
  stratData : Nat → StrategyData
  requests : Nat → Option RedemptionRequest
  vaultTokens : Int
  extTokens : Int
  vaultShares : Int
  extShares : Int
  shareSupply : Int

/-! ## Collaborator token ledgers

The underlying-asset and share-token contracts, modelled at their interface:
`transfer`, `mint` and `burn` fail on a negative amount or when the debited
account's balance is insufficient, and succeed otherwise. -/

/-- Underlying-token `transfer(external, vault, amount)`. -/
def tokenXferIn (s : VaultState) (amount : Int) : Except VaultError VaultState :=
  if amount < 0 then .error .NegativeAmount
  else if s.extTokens < amount then .error .InsufficientBalance
  else .ok { s with extTokens := s.extTokens - amount,
                    vaultTokens := s.vaultTokens + amount }

/-- Underlying-token `transfer(vault, external, amount)`. -/
def tokenXferOut (s : VaultState) (amount : Int) : Except VaultError VaultState :=
  if amount < 0 then .error .NegativeAmount
  else if s.vaultTokens < amount then .error .InsufficientBalance
  else .ok { s with vaultTokens := s.vaultTokens - amount,
                    extTokens := s.extTokens + amount }

/-- Share-token `transfer(owner, vault, amount)`. -/
def shareXferIn (s : VaultState) (amount : Int) : Except VaultError VaultState :=
  if amount < 0 then .error .NegativeAmount
  else if s.extShares < amount then .error .InsufficientBalance
  else .ok { s with extShares := s.extShares - amount,
                    vaultShares := s.vaultShares + amount }

/-- Share-token `transfer(vault, owner, amount)`. -/
def shareXferOut (s : VaultState) (amount : Int) : Except VaultError VaultState :=
  if amount < 0 then .error .NegativeAmount
  else if s.vaultShares < amount then .error .InsufficientBalance
  else .ok { s with vaultShares := s.vaultShares - amount,
                    extShares := s.extShares + amount }

/-- Share-token `mint(receiver, amount)`. -/
def shareMint (s : VaultState) (amount : Int) : Except VaultError VaultState :=
  if amount < 0 then .error .NegativeAmount
  else .ok { s with extShares := s.extShares + amount,
                    shareSupply := s.shareSupply + amount }

/-- Share-token `burn(vault, amount)`. -/
def shareBurn (s : VaultState) (amount : Int) : Except VaultError VaultState :=
  if amount < 0 then .error .NegativeAmount
  else if s.vaultShares < amount then .error .InsufficientBalance
  else .ok { s with vaultShares := s.vaultShares - amount,
                    shareSupply := s.shareSupply - amount }

/-! ## Contract entry points (`src/contract.rs`)

Host authorization (`require_auth`) is assumed to have succeeded; event
emission and TTL extension have no observable effect on the embedded state. -/

/-- `__constructor` from `src/contract.rs`: validates the two rates and
produces the initial state.  `initialExtTokens` is the aggregate
underlying-token balance held by external accounts at deployment. -/
def constructVault (lock_time : Nat) (penalty_rate min_liquidity_rate : Int)
    (strategies : List Nat) (initialExtTokens : Int) :
    Except VaultError VaultState :=
  if penalty_rate < 0 ∨ SCALAR_7 < penalty_rate then .error .InvalidAmount
  else if min_liquidity_rate < 0 ∨ SCALAR_7 < min_liquidity_rate then .error .InvalidAmount
  else .ok {
    total_shares := 0
    total_tokens := 0
    lock_time := lock_time
    penalty_rate := penalty_rate
    min_liquidity_rate := min_liquidity_rate
    strategies := strategies
    stratData := fun _ => ⟨0, 0⟩
    requests := fun _ => none
    vaultTokens := 0
    extTokens := initialExtTokens
    vaultShares := 0
    extShares := 0
    shareSupply := 0 }

/-- `deposit` from `src/contract.rs` (receiver folded into the external
aggregate).  Returns the new state and the minted share count. -/
def deposit (s : VaultState) (tokens : Int) : Except VaultError (VaultState × Int) :=
  if tokens ≤ 0 then .error .ZeroAmount
  else
    let shares := if s.total_shares = 0 ∨ s.total_tokens = 0 then tokens
                  else fixedMulFloor tokens s.total_shares s.total_tokens
    match tokenXferIn s tokens with
    | .error e => .error e
    | .ok s1 =>
      match shareMint s1 shares with
      | .error e => .error e
      | .ok s2 => .ok ({ s2 with total_shares := s.total_shares + shares,
                                 total_tokens := s.total_tokens + tokens }, shares)

/-- `mint` from `src/contract.rs`.  Returns the new state and the token cost. -/
def mint (s : VaultState) (shares : Int) : Except VaultError (VaultState × Int) :=
  if shares ≤ 0 then .error .ZeroAmount
  else
    let tokens := if s.total_shares = 0 ∨ s.total_tokens = 0 then shares
                  else fixedMulCeil shares s.total_tokens s.total_shares
    match tokenXferIn s tokens with
    | .error e => .error e
    | .ok s1 =>
      match shareMint s1 shares with
      | .error e => .error e
      | .ok s2 => .ok ({ s2 with total_shares := s.total_shares + shares,
                                 total_tokens := s.total_tokens + tokens }, tokens)

/-- `request_redeem` from `src/contract.rs`. -/
def request_redeem (s : VaultState) (shares : Int) (owner : Nat) (now : Nat) :
    Except VaultError VaultState :=
  if shares ≤ 0 then .error .ZeroAmount
  else if (s.requests owner).isSome then .error .WithdrawalInProgress
  else
    match shareXferIn s shares with
    | .error e => .error e
    | .ok s1 =>
      .ok { s1 with requests := Function.update s1.requests owner
                      (some ⟨shares, now + s.lock_time⟩) }

/-- `redeem` from `src/contract.rs`.  Returns the new state and the payout. -/
def redeem (s : VaultState) (shares : Int) (owner : Nat) (now : Nat) :
    Except VaultError (VaultState × Int) :=
  match s.requests owner with
  | none => .error .MissingRequest
  | some request =>
    if now < request.unlock_time then .error .WithdrawalLocked
    else if request.shares < shares then .error .InsufficientShares
    else
      match fixedMulFloorChecked shares s.total_tokens s.total_shares with
      | .error e => .error e
      | .ok tokens =>
        match shareBurn s shares with
        | .error e => .error e
        | .ok s1 =>
          match tokenXferOut s1 tokens with
          | .error e => .error e
          | .ok s2 =>
            let s3 := { s2 with total_shares := s.total_shares - shares,
                                total_tokens := s.total_tokens - tokens }
            if shares = request.shares then
              .ok ({ s3 with requests := Function.update s3.requests owner none }, tokens)
            else
              let s4 := { s3 with requests := (Function.update s3.requests owner
                            (some ⟨request.shares - shares, request.unlock_time⟩)) }
              match shareXferOut s4 (request.shares - shares) with
              | .error e => .error e
              | .ok s5 => .ok (s5, tokens)

/-- `emergency_redeem` from `src/contract.rs`.  Returns the new state and the
withdrawal amount. -/
def emergency_redeem (s : VaultState) (owner : Nat) (now : Nat) :
    Except VaultError (VaultState × Int) :=
  match s.requests owner with
  | none => .error .MissingRequest
  | some request =>
    match fixedMulFloorChecked request.shares s.total_tokens s.total_shares with
    | .error e => .error e
    | .ok current_tokens =>
      let penalty_amount := calculate_penalty current_tokens request.unlock_time
                              s.lock_time s.penalty_rate now
      let withdrawal_amount := current_tokens - penalty_amount
      if withdrawal_amount ≤ 0 then .error .InvalidAmount
      else
        match shareBurn s request.shares with
        | .error e => .error e
        | .ok s1 =>
          match tokenXferOut s1 withdrawal_amount with
          | .error e => .error e
          | .ok s2 =>
            .ok ({ s2 with total_shares := s.total_shares - request.shares,
                           total_tokens := s.total_tokens - withdrawal_amount,
                           requests := Function.update s2.requests owner none },
                 withdrawal_amount)

/-- `cancel_redeem` from `src/contract.rs`. -/
def cancel_redeem (s : VaultState) (owner : Nat) : Except VaultError VaultState :=
  match s.requests owner with
  | none => .error .MissingRequest
  | some request =>
    match shareXferOut s request.shares with
    | .error e => .error e
    | .ok s1 => .ok { s1 with requests := Function.update s1.requests owner none }

/-- `borrow` from `src/contract.rs`. -/
def borrow (s : VaultState) (strategy : Nat) (amount : Int) :
    Except VaultError VaultState :=
  if amount ≤ 0 then .error .ZeroAmount
  else if strategy ∉ s.strategies then .error .UnauthorizedStrategy
  else
    let vault_balance := s.vaultTokens
    let required_liquidity := fixedMulCeil s.total_tokens s.min_liquidity_rate SCALAR_7
    if vault_balance ≤ required_liquidity then .error .InsufficientVaultBalance
    else if vault_balance - required_liquidity < amount then .error .InsufficientVaultBalance
    else
      match tokenXferOut s amount with
      | .error e => .error e
      | .ok s1 =>
        let d := s1.stratData strategy
        .ok { s1 with stratData := Function.update s1.stratData strategy
                        { d with borrowed := d.borrowed + amount } }

/-- `repay` from `src/contract.rs`. -/
def repay (s : VaultState) (strategy : Nat) (amount : Int) :
    Except VaultError VaultState :=
  if amount ≤ 0 then .error .ZeroAmount
  else if strategy ∉ s.strategies then .error .UnauthorizedStrategy
  else if (s.stratData strategy).borrowed < amount then .error .InvalidAmount
  else
    match tokenXferIn s amount with
    | .error e => .error e
    | .ok s1 =>
      let d := s1.stratData strategy
      .ok { s1 with stratData := Function.update s1.stratData strategy
                      { d with borrowed := d.borrowed - amount } }

/-- `transfer_to` from `src/contract.rs`. -/
def transfer_to (s : VaultState) (strategy : Nat) (amount : Int) :
    Except VaultError VaultState :=
  if amount ≤ 0 then .error .ZeroAmount
  else if strategy ∉ s.strategies then .error .UnauthorizedStrategy
  else
    match tokenXferOut s amount with
    | .error e => .error e
    | .ok s1 =>
      let d := s1.stratData strategy
      .ok { s1 with stratData := Function.update s1.stratData strategy
                      { d with net_impact := d.net_impact - amount },
                    total_tokens := s1.total_tokens - amount }

/-- `transfer_from` from `src/contract.rs`. -/
def transfer_from (s : VaultState) (strategy : Nat) (amount : Int) :
    Except VaultError VaultState :=
  if amount ≤ 0 then .error .ZeroAmount
  else if strategy ∉ s.strategies then .error .UnauthorizedStrategy
  else
    match tokenXferIn s amount with
    | .error e => .error e
    | .ok s1 =>
      let d := s1.stratData strategy
      .ok { s1 with stratData := Function.update s1.stratData strategy
                      { d with net_impact := d.net_impact + amount },
                    total_tokens := s1.total_tokens + amount }

/-! ## Operation sequences -/

/-- A vault operation, with the ledger timestamp at which it executes. -/
inductive Op where
  | deposit (tokens : Int)
  | mint (shares : Int)
  | request_redeem (shares : Int) (owner : Nat) (now : Nat)
  | redeem (shares : Int) (owner : Nat) (now : Nat)
  | emergency_redeem (owner : Nat) (now : Nat)
  | cancel_redeem (owner : Nat)
  | borrow (strategy : Nat) (amount : Int)
  | repay (strategy : Nat) (amount : Int)
  | transfer_to (strategy : Nat) (amount : Int)
  | transfer_from (strategy : Nat) (amount : Int)

/-- Dispatch one operation, discarding the returned amount. -/
def step (s : VaultState) : Op → Except VaultError VaultState
  | .deposit tokens => (deposit s tokens).map Prod.fst
  | .mint shares => (mint s shares).map Prod.fst
  | .request_redeem shares owner now => request_redeem s shares owner now
  | .redeem shares owner now => (redeem s shares owner now).map Prod.fst
  | .emergency_redeem owner now => (emergency_redeem s owner now).map Prod.fst
  | .cancel_redeem owner => cancel_redeem s owner
  | .borrow strategy amount => borrow s strategy amount
  | .repay strategy amount => repay s strategy amount
  | .transfer_to strategy amount => transfer_to s strategy amount
  | .transfer_from strategy amount => transfer_from s strategy amount

/-- Run a sequence of operations; fails as soon as one operation fails. -/
def runOps (s : VaultState) : List Op → Except VaultError VaultState
  | [] => .ok s
  | op :: rest =>
    match step s op with
    | .error e => .error e
    | .ok s' => runOps s' rest

/-! ## The aggregate borrowed amount and the state invariant -/

/-- Total outstanding principal across the registered strategies. -/
def borrowedSumL (l : List Nat) (f : Nat → StrategyData) : Int :=
  (l.dedup.map (fun k => (f k).borrowed)).sum

def borrowedSum (s : VaultState) : Int := borrowedSumL s.strategies s.stratData

/-- The inductive invariant carried through every successful operation. -/
structure Inv (s : VaultState) : Prop where
  tokens_nonneg : 0 ≤ s.total_tokens
  shares_eq_supply : s.total_shares = s.shareSupply
  supply_split : s.shareSupply = s.vaultShares + s.extShares
  vaultShares_nonneg : 0 ≤ s.vaultShares
  extShares_nonneg : 0 ≤ s.extShares
  vaultTokens_nonneg : 0 ≤ s.vaultTokens
  extTokens_nonneg : 0 ≤ s.extTokens
  accounting : s.vaultTokens + borrowedSum s = s.total_tokens
  borrowed_nonneg : ∀ k, 0 ≤ (s.stratData k).borrowed
  request_pos : ∀ o r, s.requests o = some r → 0 < r.shares
  penalty_rate_nonneg : 0 ≤ s.penalty_rate

/-! ## Concrete states used to witness the claims -/

/-- A small vault state: 10 shares backed by 10 tokens, one strategy `0`,
one external holder owning all 10 shares. -/
def exState : VaultState where
  total_shares := 10
  total_tokens := 10
  lock_time := 5
  penalty_rate := 1000000
  min_liquidity_rate := 0
  strategies := [0]
  stratData := fun _ => ⟨0, 0⟩
  requests := fun _ => none
  vaultTokens := 10
  extTokens := 0
  vaultShares := 0
  extShares := 10
  shareSupply := 10

/-- `exState` after a successful `borrow` of 5 by strategy 0. -/
def exBorrow : VaultState :=
  match borrow exState 0 5 with
  | .ok s => s
  | .error _ => exState

/-- `exState` after a successful `transfer_to` of 5 by strategy 0. -/
def exTransferTo : VaultState :=
  match transfer_to exState 0 5 with
  | .ok s => s
  | .error _ => exState

/-- The freshly constructed vault with lock time 3, zero rates, no strategies
and 5 external tokens, as produced by `constructVault 3 0 0 [] 5`. -/
def c2Init : VaultState where
  total_shares := 0
  total_tokens := 0
  lock_time := 3
  penalty_rate := 0
  min_liquidity_rate := 0
  strategies := []
  stratData := fun _ => ⟨0, 0⟩
  requests := fun _ => none
  vaultTokens := 0
  extTokens := 5
  vaultShares := 0
  extShares := 0
  shareSupply := 0

/-- `c2Init` after a successful deposit of 5. -/
def c2Final : VaultState :=
  match runOps c2Init [Op.deposit 5] with
  | .ok s => s
  | .error _ => c2Init

/-- A state with one pending redemption request: owner 1 requested 10 shares,
unlocking at time 5, in a vault of 10 shares and 10 tokens. -/
def reqState : VaultState where
  total_shares := 10
  total_tokens := 10
  lock_time := 5
  penalty_rate := 1000000
  min_liquidity_rate := 0
  strategies := []
  stratData := fun _ => ⟨0, 0⟩
  requests := fun o => if o = 1 then some ⟨10, 5⟩ else none
  vaultTokens := 10
  extTokens := 0
  vaultShares := 10
  extShares := 0
  shareSupply := 10

/-- `reqState` after a successful partial redemption of 4 of the 10 requested
shares at time 7 (past the unlock time). -/
def reqPartial : VaultState × Int :=
  match redeem reqState 4 1 7 with
  | .ok p => p
  | .error _ => (reqState, 0)

/-- `reqState` after a successful emergency redemption by owner 1 at time 0. -/
def reqEmergency : VaultState × Int :=
  match emergency_redeem reqState 1 0 with
  | .ok p => p
  | .error _ => (reqState, 0)

/-- A freshly constructed vault (lock time 10, zero rates, strategy `7`,
100 external tokens) after `deposit 3` and `transfer_from 7 7`: the aggregates
are 3 shares backed by 10 tokens (share price 10/3). -/
def c7Mid : VaultState :=
  match runOps
      { total_shares := 0, total_tokens := 0, lock_time := 10, penalty_rate := 0,
        min_liquidity_rate := 0, strategies := [7], stratData := fun _ => ⟨0, 0⟩,
        requests := fun _ => none, vaultTokens := 0, extTokens := 100,
        vaultShares := 0, extShares := 0, shareSupply := 0 }
      [Op.deposit 3, Op.transfer_from 7 7] with
  | .ok s => s
  | .error _ => c2Init

/-- `c7Mid` after the cycle under test: `deposit 4` (which mints 1 share),
then `request_redeem` of that 1 share at time 0. -/
def c7Requested : VaultState :=
  match runOps c7Mid [Op.deposit 4, Op.request_redeem 1 1 0] with
  | .ok s => s
  | .error _ => c7Mid

/-- A vault with two depositors of 10 each, both having requested redemption
of their full 10 shares (owner 1 and owner 2, unlock time 10): 20 shares,
20 tokens, 20 share-tokens held by the contract in escrow. -/
def c10Mid : VaultState :=
  match runOps
      { total_shares := 0, total_tokens := 0, lock_time := 10, penalty_rate := 0,
        min_liquidity_rate := 0, strategies := [], stratData := fun _ => ⟨0, 0⟩,
        requests := fun _ => none, vaultTokens := 0, extTokens := 100,
        vaultShares := 0, extShares := 0, shareSupply := 0 }
      [Op.deposit 10, Op.deposit 10, Op.request_redeem 10 2 0,
       Op.request_redeem 10 1 0] with
  | .ok s => s
  | .error _ => c2Init

/-- `c10Mid` after owner 1 partially redeems 4 of the requested 10 shares. -/
def c10Partial : VaultState :=
  match step c10Mid (.redeem 4 1 50) with
  | .ok s => s
  | .error _ => c10Mid

/-- `c10Partial` after owner 1 cancels the (shrunk) request. -/
def c10Cancelled : VaultState :=
  match cancel_redeem c10Partial 1 with
  | .ok s => s
  | .error _ => c10Partial

/-- The freshly constructed vault for the stale-request trace: zero lock time,
zero rates, no strategies, 10 external tokens. -/
def c3Init : VaultState where
  total_shares := 0
  total_tokens := 0
  lock_time := 0
  penalty_rate := 0
  min_liquidity_rate := 0
  strategies := []
  stratData := fun _ => ⟨0, 0⟩
  requests := fun _ => none
  vaultTokens := 0
  extTokens := 10
  vaultShares := 0
  extShares := 0
  shareSupply := 0

/-- The operation sequence that exhausts the share supply while owner 1's
(partially redeemed, hence shrunk-and-refunded) request stays live: deposit 10,
owner 1 requests 10 and partially redeems 4 (the escrow bug refunds the other
6 shares while keeping the request of 6), owner 2 requests and fully redeems
those 6 shares. -/
def c3Ops : List Op :=
  [Op.deposit 10, Op.request_redeem 10 1 0, Op.redeem 4 1 0,
   Op.request_redeem 6 2 0, Op.redeem 6 2 0]

/-- The reachable state at the end of `c3Ops`: `total_shares = total_tokens
= 0` with owner 1's stale request of 6 shares still stored. -/
def c3Stale : VaultState :=
  match runOps c3Init c3Ops with
  | .ok s => s
  | .error _ => c3Init

/-! ## Basic arithmetic lemmas about the fixed-point helpers -/

theorem fdiv_le_neg_fdiv_neg {a d : Int} (hd : 0 < d) : a.fdiv d ≤ -((-a).fdiv d) := by
  rw [Int.fdiv_eq_ediv _ hd.le, Int.fdiv_eq_ediv _ hd.le]
  have h1 : a / d * d ≤ a := Int.ediv_mul_le a (ne_of_gt hd)
  have h2 : -a / d * d ≤ -a := Int.ediv_mul_le (-a) (ne_of_gt hd)
  by_contra hlt
  push_neg at hlt
  have hsum : 1 ≤ a / d + -a / d := by omega
  nlinarith [h1, h2, hsum]

theorem fixedMulFloor_le_ceil {x y d : Int} (hd : 0 < d) :
    fixedMulFloor x y d ≤ fixedMulCeil x y d :=
  fdiv_le_neg_fdiv_neg hd

theorem fixedMulFloor_nonneg {x y d : Int} (hx : 0 ≤ x) (hy : 0 ≤ y) (hd : 0 ≤ d) :
    0 ≤ fixedMulFloor x y d :=
  Int.fdiv_nonneg (mul_nonneg hx hy) hd

theorem fdiv_nonpos_of_nonpos {a d : Int} (ha : a ≤ 0) (hd : 0 ≤ d) : a.fdiv d ≤ 0 := by
  rcases eq_or_lt_of_le hd with h | h
  · simp [← h]
  · rw [Int.fdiv_eq_ediv _ hd]
    calc a / d ≤ 0 / d := Int.ediv_le_ediv h ha
    _ = 0 := Int.zero_ediv d

theorem fixedMulCeil_nonneg {x y d : Int} (hx : 0 ≤ x) (hy : 0 ≤ y) (hd : 0 ≤ d) :
    0 ≤ fixedMulCeil x y d := by
  unfold fixedMulCeil
  have h := @fdiv_nonpos_of_nonpos (-(x * y)) d (by nlinarith [mul_nonneg hx hy]) hd
  omega

/-- Monotonicity of `fixedMulFloor` in the middle argument. -/
theorem fixedMulFloor_mono_middle {x y y' d : Int} (hx : 0 ≤ x) (hd : 0 ≤ d)
    (h : y ≤ y') : fixedMulFloor x y d ≤ fixedMulFloor x y' d := by
  rcases lt_or_eq_of_le hd with hd' | hd'
  · unfold fixedMulFloor
    rw [Int.fdiv_eq_ediv _ (le_of_lt hd'), Int.fdiv_eq_ediv _ (le_of_lt hd')]
    exact Int.ediv_le_ediv hd' (mul_le_mul_of_nonneg_left h hx)
  · simp [fixedMulFloor, ← hd']

/-- `floor(shares * T / S) ≤ T` whenever `0 ≤ T` and `0 ≤ shares ≤ S`. -/
theorem fixedMulFloor_part_le {shares T S : Int} (hT : 0 ≤ T)
    (h0 : 0 ≤ shares) (hS : shares ≤ S) : fixedMulFloor shares T S ≤ T := by
  rcases lt_or_eq_of_le (le_trans h0 hS) with hSpos | hS0
  · unfold fixedMulFloor
    rw [Int.fdiv_eq_ediv _ (le_of_lt hSpos)]
    calc shares * T / S ≤ S * T / S := Int.ediv_le_ediv hSpos (by nlinarith)
    _ = T := Int.mul_ediv_cancel_left T (ne_of_gt hSpos)
  · have hs : shares = 0 := le_antisymm (hS0 ▸ hS) h0
    simpa [hs, fixedMulFloor] using hT

/-! ## Inversion lemmas for the ledger helpers -/

theorem fixedMulFloorChecked_ok {x y d t : Int}
    (h : fixedMulFloorChecked x y d = .ok t) :
    d ≠ 0 ∧ t = fixedMulFloor x y d := by
  unfold fixedMulFloorChecked at h
  split at h
  · simp at h
  next hd =>
    simp only [Except.ok.injEq] at h
    exact ⟨hd, h.symm⟩

theorem tokenXferIn_ok {s : VaultState} {a : Int} {s' : VaultState}
    (h : tokenXferIn s a = .ok s') :
    0 ≤ a ∧ a ≤ s.extTokens ∧
      s' = { s with extTokens := s.extTokens - a, vaultTokens := s.vaultTokens + a } := by
  unfold tokenXferIn at h
  by_cases h1 : a < 0
  · simp [h1] at h
  · by_cases h2 : s.extTokens < a
    · simp [h1, h2] at h
    · simp [h1, h2] at h
      exact ⟨by omega, by omega, h.symm⟩

theorem tokenXferOut_ok {s : VaultState} {a : Int} {s' : VaultState}
    (h : tokenXferOut s a = .ok s') :
    0 ≤ a ∧ a ≤ s.vaultTokens ∧
      s' = { s with vaultTokens := s.vaultTokens - a, extTokens := s.extTokens + a } := by
  unfold tokenXferOut at h
  by_cases h1 : a < 0
  · simp [h1] at h
  · by_cases h2 : s.vaultTokens < a
    · simp [h1, h2] at h
    · simp [h1, h2] at h
      exact ⟨by omega, by omega, h.symm⟩

theorem shareXferIn_ok {s : VaultState} {a : Int} {s' : VaultState}
    (h : shareXferIn s a = .ok s') :
    0 ≤ a ∧ a ≤ s.extShares ∧
      s' = { s with extShares := s.extShares - a, vaultShares := s.vaultShares + a } := by
  unfold shareXferIn at h
  by_cases h1 : a < 0
  · simp [h1] at h
  · by_cases h2 : s.extShares < a
    · simp [h1, h2] at h
    · simp [h1, h2] at h
      exact ⟨by omega, by omega, h.symm⟩

theorem shareXferOut_ok {s : VaultState} {a : Int} {s' : VaultState}
    (h : shareXferOut s a = .ok s') :
    0 ≤ a ∧ a ≤ s.vaultShares ∧
      s' = { s with vaultShares := s.vaultShares - a, extShares := s.extShares + a } := by
  unfold shareXferOut at h
  by_cases h1 : a < 0
  · simp [h1] at h
  · by_cases h2 : s.vaultShares < a
    · simp [h1, h2] at h
    · simp [h1, h2] at h
      exact ⟨by omega, by omega, h.symm⟩

theorem shareMint_ok {s : VaultState} {a : Int} {s' : VaultState}
    (h : shareMint s a = .ok s') :
    0 ≤ a ∧
      s' = { s with extShares := s.extShares + a, shareSupply := s.shareSupply + a } := by
  unfold shareMint at h
  by_cases h1 : a < 0
  · simp [h1] at h
  · simp [h1] at h
    exact ⟨by omega, h.symm⟩

theorem shareBurn_ok {s : VaultState} {a : Int} {s' : VaultState}
    (h : shareBurn s a = .ok s') :
    0 ≤ a ∧ a ≤ s.vaultShares ∧
      s' = { s with vaultShares := s.vaultShares - a, shareSupply := s.shareSupply - a } := by
  unfold shareBurn at h
  by_cases h1 : a < 0
  · simp [h1] at h
  · by_cases h2 : s.vaultShares < a
    · simp [h1, h2] at h
    · simp [h1, h2] at h
      exact ⟨by omega, by omega, h.symm⟩

theorem sum_map_update {l : List Nat} (hl : l.Nodup) {k : Nat} (hk : k ∈ l)
    (g : Nat → Int) (v : Int) :
    (l.map (Function.update g k v)).sum = (l.map g).sum - g k + v := by
  induction l with
  | nil => cases hk
  | cons a t ih =>
    rcases List.mem_cons.mp hk with rfl | hkt
    · have hnot : List.map (Function.update g k v) t = List.map g t := by
        apply List.map_congr_left
        intro j hj
        have hjk : j ≠ k := fun h => (List.nodup_cons.mp hl).1 (h ▸ hj)
        exact Function.update_noteq hjk _ _
      simp [hnot, Function.update_same]
      omega
    · have hak : a ≠ k := by rintro rfl; exact (List.nodup_cons.mp hl).1 hkt
      have hih := ih (List.nodup_cons.mp hl).2 hkt
      simp [Function.update_noteq hak, hih]
      omega

theorem borrowedSumL_update {l : List Nat} {k : Nat} (hk : k ∈ l)
    (f : Nat → StrategyData) (d : StrategyData) :
    borrowedSumL l (Function.update f k d) =
      borrowedSumL l f - (f k).borrowed + d.borrowed := by
  unfold borrowedSumL
  have heq : (fun j => ((Function.update f k d) j).borrowed) =
      Function.update (fun j => (f j).borrowed) k d.borrowed := by
    funext j
    by_cases hj : j = k
    · subst hj; simp [Function.update_same]
    · simp [Function.update_noteq hj]
  rw [heq]
  exact sum_map_update l.nodup_dedup (List.mem_dedup.mpr hk) _ _

theorem borrowedSumL_nonneg {l : List Nat} {f : Nat → StrategyData}
    (h : ∀ k, 0 ≤ (f k).borrowed) : 0 ≤ borrowedSumL l f := by
  unfold borrowedSumL
  apply List.sum_nonneg
  intro x hx
  rcases List.mem_map.mp hx with ⟨k, _, rfl⟩
  exact h k

theorem Inv.shares_nonneg {s : VaultState} (hI : Inv s) : 0 ≤ s.total_shares := by
  have := hI.shares_eq_supply
  have := hI.supply_split
  have := hI.vaultShares_nonneg
  have := hI.extShares_nonneg
  omega

/-! ## Invariant preservation, one lemma per entry point -/

theorem deposit_preserves {s : VaultState} {t : Int} {s' : VaultState} {r : Int}
    (hI : Inv s) (h : deposit s t = .ok (s', r)) : Inv s' := by
  obtain ⟨tn, se, ss, vsn, esn, vtn, etn, acc, bn, rp, prn⟩ := hI
  unfold deposit at h
  by_cases ht : t ≤ 0
  · simp [ht] at h
  · simp only [if_neg ht] at h
    cases h1 : tokenXferIn s t with
    | error e => rw [h1] at h; simp at h
    | ok s1 =>
      rw [h1] at h
      obtain ⟨hta, htb, rfl⟩ := tokenXferIn_ok h1
      simp only [] at h
      cases h2 : shareMint _ (if s.total_shares = 0 ∨ s.total_tokens = 0 then t
          else fixedMulFloor t s.total_shares s.total_tokens) with
      | error e => rw [h2] at h; simp at h
      | ok s2 =>
        rw [h2] at h
        obtain ⟨hsh, rfl⟩ := shareMint_ok h2
        simp only [Except.ok.injEq, Prod.mk.injEq] at h
        obtain ⟨rfl, rfl⟩ := h.symm.imp Eq.symm Eq.symm
        simp only [borrowedSum] at acc ⊢
        refine ⟨by simp; omega, by simp; omega, by simp; omega, by simpa using vsn,
          by simp; omega, by simp; omega, by simp; omega, by simp [borrowedSum]; omega,
          by simpa using bn, by simpa using rp, by simpa using prn⟩

theorem mint_preserves {s : VaultState} {sh : Int} {s' : VaultState} {r : Int}
    (hI : Inv s) (h : mint s sh = .ok (s', r)) : Inv s' := by
  obtain ⟨tn, se, ss, vsn, esn, vtn, etn, acc, bn, rp, prn⟩ := hI
  unfold mint at h
  by_cases hsh : sh ≤ 0
  · simp [hsh] at h
  · simp only [if_neg hsh] at h
    cases h1 : tokenXferIn s (if s.total_shares = 0 ∨ s.total_tokens = 0 then sh
        else fixedMulCeil sh s.total_tokens s.total_shares) with
    | error e => rw [h1] at h; simp at h
    | ok s1 =>
      rw [h1] at h
      obtain ⟨hta, htb, rfl⟩ := tokenXferIn_ok h1
      simp only [] at h
      cases h2 : shareMint _ sh with
      | error e => rw [h2] at h; simp at h
      | ok s2 =>
        rw [h2] at h
        obtain ⟨hmint, rfl⟩ := shareMint_ok h2
        simp only [Except.ok.injEq, Prod.mk.injEq] at h
        obtain ⟨rfl, rfl⟩ := h.symm.imp Eq.symm Eq.symm
        refine ⟨by simp; omega, by simp; omega, by simp; omega, by simpa using vsn,
          by simp; omega, by simp; omega, by simp; omega, by simp only [borrowedSum] at acc ⊢; omega,
          by simpa using bn, by simpa using rp, by simpa using prn⟩

theorem request_redeem_preserves {s : VaultState} {sh : Int} {owner now : Nat}
    {s' : VaultState} (hI : Inv s) (h : request_redeem s sh owner now = .ok s') :
    Inv s' := by
  obtain ⟨tn, se, ss, vsn, esn, vtn, etn, acc, bn, rp, prn⟩ := hI
  unfold request_redeem at h
  by_cases hsh : sh ≤ 0
  · simp [hsh] at h
  · simp only [if_neg hsh] at h
    by_cases hreq : (s.requests owner).isSome
    · simp [hreq] at h
    · simp only [hreq, if_false, Bool.false_eq_true] at h
      cases h1 : shareXferIn s sh with
      | error e => rw [h1] at h; simp at h
      | ok s1 =>
        rw [h1] at h
        obtain ⟨ha, hb, rfl⟩ := shareXferIn_ok h1
        simp only [Except.ok.injEq] at h
        subst h
        refine ⟨by simp; omega, by simp; omega, by simp; omega, by simp; omega,
          by simp; omega, by simpa using vtn, by simpa using etn,
          by simp only [borrowedSum] at acc ⊢; omega, by simpa using bn, ?_, by simpa using prn⟩
        intro o req hor
        simp only [] at hor
        by_cases ho : o = owner
        · subst ho
          rw [Function.update_same] at hor
          cases hor
          simpa using by omega
        · rw [Function.update_noteq ho] at hor
          exact rp o req hor

theorem cancel_redeem_preserves {s : VaultState} {owner : Nat} {s' : VaultState}
    (hI : Inv s) (h : cancel_redeem s owner = .ok s') : Inv s' := by
  obtain ⟨tn, se, ss, vsn, esn, vtn, etn, acc, bn, rp, prn⟩ := hI
  unfold cancel_redeem at h
  cases hreq : s.requests owner with
  | none => rw [hreq] at h; simp at h
  | some request =>
    rw [hreq] at h
    simp only [] at h
    cases h1 : shareXferOut s request.shares with
    | error e => rw [h1] at h; simp at h
    | ok s1 =>
      rw [h1] at h
      obtain ⟨ha, hb, rfl⟩ := shareXferOut_ok h1
      simp only [Except.ok.injEq] at h
      subst h
      refine ⟨by simp; omega, by simp; omega, by simp; omega, by simp; omega,
        by simp; omega, by simpa using vtn, by simpa using etn,
        by simp only [borrowedSum] at acc ⊢; omega, by simpa using bn, ?_, by simpa using prn⟩
      intro o req hor
      simp only [] at hor
      by_cases ho : o = owner
      · subst ho
        rw [Function.update_same] at hor
        cases hor
      · rw [Function.update_noteq ho] at hor
        exact rp o req hor

theorem calculate_penalty_nonneg {tv : Int} {u l : Nat} {pr : Int} {now : Nat}
    (htv : 0 ≤ tv) (hpr : 0 ≤ pr) : 0 ≤ calculate_penalty tv u l pr now := by
  unfold calculate_penalty
  split
  · exact le_refl 0
  · exact fixedMulFloor_nonneg htv
      (fixedMulFloor_nonneg hpr (by omega) (by omega))
      (by norm_num [SCALAR_7])

theorem redeem_preserves {s : VaultState} {sh : Int} {owner now : Nat}
    {s' : VaultState} {r : Int} (hI : Inv s)
    (h : redeem s sh owner now = .ok (s', r)) : Inv s' := by
  obtain ⟨tn, se, ss, vsn, esn, vtn, etn, acc, bn, rp, prn⟩ := hI
  unfold redeem at h
  split at h
  next => simp at h
  next request hreq =>
    split at h
    next => simp at h
    next hlock =>
      split at h
      next => simp at h
      next hover =>
        split at h
        next e hdiv => simp at h
        next tok hdiv =>
          obtain ⟨hSne, rfl⟩ := fixedMulFloorChecked_ok hdiv
          split at h
          next e hburn => simp at h
          next s1 hburn =>
            obtain ⟨hb0, hbv, rfl⟩ := shareBurn_ok hburn
            have hshS : sh ≤ s.total_shares := by omega
            have htokT : fixedMulFloor sh s.total_tokens s.total_shares ≤ s.total_tokens :=
              fixedMulFloor_part_le tn hb0 hshS
            split at h
            next e h2 => simp at h
            next s2 h2 =>
              obtain ⟨hw0, hwv, rfl⟩ := tokenXferOut_ok h2
              simp only [] at hwv
              split at h
              next hfull =>
                simp only [Except.ok.injEq, Prod.mk.injEq] at h
                obtain ⟨rfl, rfl⟩ := h
                refine ⟨by simp; omega, by simp; omega, by simp; omega, by simp; omega,
                  by simpa using esn, by simp; omega, by simp; omega,
                  by simp only [borrowedSum] at acc ⊢; omega, by simpa using bn, ?_,
                  by simpa using prn⟩
                intro o req hor
                simp only [] at hor
                by_cases ho : o = owner
                · subst ho; rw [Function.update_same] at hor; cases hor
                · rw [Function.update_noteq ho] at hor; exact rp o req hor
              next hfull =>
                simp only [] at h
                split at h
                next e h3 => simp at h
                next s5 h3 =>
                  obtain ⟨hr0, hrv, rfl⟩ := shareXferOut_ok h3
                  simp only [] at hrv
                  simp only [Except.ok.injEq, Prod.mk.injEq] at h
                  obtain ⟨rfl, rfl⟩ := h
                  have hpos : 0 < request.shares - sh := by omega
                  refine ⟨by simp; omega, by simp; omega, by simp; omega, by simp; omega,
                    by simp; omega, by simp; omega, by simp; omega,
                    by simp only [borrowedSum] at acc ⊢; omega, by simpa using bn, ?_,
                    by simpa using prn⟩
                  intro o req hor
                  simp only [] at hor
                  by_cases ho : o = owner
                  · subst ho
                    rw [Function.update_same] at hor
                    cases hor
                    simpa using hpos
                  · rw [Function.update_noteq ho] at hor
                    exact rp o req hor

theorem emergency_redeem_preserves {s : VaultState} {owner now : Nat}
    {s' : VaultState} {r : Int} (hI : Inv s)
    (h : emergency_redeem s owner now = .ok (s', r)) : Inv s' := by
  obtain ⟨tn, se, ss, vsn, esn, vtn, etn, acc, bn, rp, prn⟩ := hI
  unfold emergency_redeem at h
  split at h
  next => simp at h
  next request hreq =>
    split at h
    next e hdiv => simp at h
    next cur hdiv =>
      obtain ⟨hSne, rfl⟩ := fixedMulFloorChecked_ok hdiv
      simp only [] at h
      split at h
      next => simp at h
      next hwpos =>
        split at h
        next e hburn => simp at h
        next s1 hburn =>
          obtain ⟨hb0, hbv, rfl⟩ := shareBurn_ok hburn
          have hrsS : request.shares ≤ s.total_shares := by omega
          have hcur0 : 0 ≤ fixedMulFloor request.shares s.total_tokens s.total_shares :=
            fixedMulFloor_nonneg hb0 tn (by omega)
          have hcurT : fixedMulFloor request.shares s.total_tokens s.total_shares ≤
              s.total_tokens := fixedMulFloor_part_le tn hb0 hrsS
          have hpen : 0 ≤ calculate_penalty
              (fixedMulFloor request.shares s.total_tokens s.total_shares)
              request.unlock_time s.lock_time s.penalty_rate now :=
            calculate_penalty_nonneg hcur0 prn
          split at h
          next e h2 => simp at h
          next s2 h2 =>
            obtain ⟨hw0, hwv, rfl⟩ := tokenXferOut_ok h2
            simp only [] at hwv
            simp only [Except.ok.injEq, Prod.mk.injEq] at h
            obtain ⟨rfl, rfl⟩ := h.symm.imp Eq.symm Eq.symm
            refine ⟨by simp; omega, by simp; omega, by simp; omega, by simp; omega,
              by simpa using esn, by simp; omega, by simp; omega,
              by simp only [borrowedSum] at acc ⊢; omega, by simpa using bn, ?_,
              by simpa using prn⟩
            intro o req hor
            simp only [] at hor
            by_cases ho : o = owner
            · subst ho; rw [Function.update_same] at hor; cases hor
            · rw [Function.update_noteq ho] at hor; exact rp o req hor

theorem borrow_preserves {s : VaultState} {k : Nat} {a : Int} {s' : VaultState}
    (hI : Inv s) (h : borrow s k a = .ok s') : Inv s' := by
  obtain ⟨tn, se, ss, vsn, esn, vtn, etn, acc, bn, rp, prn⟩ := hI
  unfold borrow at h
  by_cases ha : a ≤ 0
  · simp [ha] at h
  · simp only [if_neg ha] at h
    by_cases hstr : k ∉ s.strategies
    · simp [hstr] at h
    · have hmem : k ∈ s.strategies := not_not.mp hstr
      simp only [if_neg hstr] at h
      split at h
      next => simp at h
      next hliq1 =>
        split at h
        next => simp at h
        next hliq2 =>
          cases h1 : tokenXferOut s a with
          | error e => rw [h1] at h; simp at h
          | ok s1 =>
            rw [h1] at h
            obtain ⟨ha0, hav, rfl⟩ := tokenXferOut_ok h1
            simp only [Except.ok.injEq] at h
            subst h
            have hupd : borrowedSumL s.strategies
                (Function.update s.stratData k
                  { s.stratData k with borrowed := (s.stratData k).borrowed + a }) =
                borrowedSumL s.strategies s.stratData -
                  (s.stratData k).borrowed + ((s.stratData k).borrowed + a) :=
              borrowedSumL_update hmem _ _
            refine ⟨by simp; omega, by simp; omega, by simp; omega, by simpa using vsn,
              by simpa using esn, by simp; omega, by simp; omega,
              ?_, ?_, by simpa using rp, by simpa using prn⟩
            · simp only [borrowedSum] at acc ⊢
              simp only [hupd]
              omega
            · intro j
              by_cases hj : j = k
              · subst hj
                simp [Function.update_same]
                have := bn j
                omega
              · simpa [Function.update_noteq hj] using bn j

theorem repay_preserves {s : VaultState} {k : Nat} {a : Int} {s' : VaultState}
    (hI : Inv s) (h : repay s k a = .ok s') : Inv s' := by
  obtain ⟨tn, se, ss, vsn, esn, vtn, etn, acc, bn, rp, prn⟩ := hI
  unfold repay at h
  by_cases ha : a ≤ 0
  · simp [ha] at h
  · simp only [if_neg ha] at h
    by_cases hstr : k ∉ s.strategies
    · simp [hstr] at h
    · have hmem : k ∈ s.strategies := not_not.mp hstr
      simp only [if_neg hstr] at h
      by_cases hover : (s.stratData k).borrowed < a
      · simp [hover] at h
      · simp only [if_neg hover] at h
        cases h1 : tokenXferIn s a with
        | error e => rw [h1] at h; simp at h
        | ok s1 =>
          rw [h1] at h
          obtain ⟨ha0, hav, rfl⟩ := tokenXferIn_ok h1
          simp only [Except.ok.injEq] at h
          subst h
          have hupd : borrowedSumL s.strategies
              (Function.update s.stratData k
                { s.stratData k with borrowed := (s.stratData k).borrowed - a }) =
              borrowedSumL s.strategies s.stratData -
                (s.stratData k).borrowed + ((s.stratData k).borrowed - a) :=
            borrowedSumL_update hmem _ _
          refine ⟨by simp; omega, by simp; omega, by simp; omega, by simpa using vsn,
            by simpa using esn, by simp; omega, by simp; omega,
            ?_, ?_, by simpa using rp, by simpa using prn⟩
          · simp only [borrowedSum] at acc ⊢
            simp only [hupd]
            omega
          · intro j
            by_cases hj : j = k
            · subst hj
              simp [Function.update_same]
              omega
            · simpa [Function.update_noteq hj] using bn j

theorem transfer_to_preserves {s : VaultState} {k : Nat} {a : Int} {s' : VaultState}
    (hI : Inv s) (h : transfer_to s k a = .ok s') : Inv s' := by
  obtain ⟨tn, se, ss, vsn, esn, vtn, etn, acc, bn, rp, prn⟩ := hI
  unfold transfer_to at h
  by_cases ha : a ≤ 0
  · simp [ha] at h
  · simp only [if_neg ha] at h
    by_cases hstr : k ∉ s.strategies
    · simp [hstr] at h
    · have hmem : k ∈ s.strategies := not_not.mp hstr
      simp only [if_neg hstr] at h
      cases h1 : tokenXferOut s a with
      | error e => rw [h1] at h; simp at h
      | ok s1 =>
        rw [h1] at h
        obtain ⟨ha0, hav, rfl⟩ := tokenXferOut_ok h1
        simp only [Except.ok.injEq] at h
        subst h
        have hupd : borrowedSumL s.strategies
            (Function.update s.stratData k
              { s.stratData k with net_impact := (s.stratData k).net_impact - a }) =
            borrowedSumL s.strategies s.stratData -
              (s.stratData k).borrowed + (s.stratData k).borrowed :=
          borrowedSumL_update hmem _ _
        have hsum : 0 ≤ borrowedSumL s.strategies s.stratData := borrowedSumL_nonneg bn
        refine ⟨?_, by simp; omega, by simp; omega, by simpa using vsn,
          by simpa using esn, by simp; omega, by simp; omega,
          ?_, ?_, by simpa using rp, by simpa using prn⟩
        · simp only [borrowedSum] at acc
          simp
          omega
        · simp only [borrowedSum] at acc ⊢
          simp only [hupd]
          omega
        · intro j
          by_cases hj : j = k
          · subst hj
            simp [Function.update_same]
            exact bn j
          · simpa [Function.update_noteq hj] using bn j

theorem transfer_from_preserves {s : VaultState} {k : Nat} {a : Int} {s' : VaultState}
    (hI : Inv s) (h : transfer_from s k a = .ok s') : Inv s' := by
  obtain ⟨tn, se, ss, vsn, esn, vtn, etn, acc, bn, rp, prn⟩ := hI
  unfold transfer_from at h
  by_cases ha : a ≤ 0
  · simp [ha] at h
  · simp only [if_neg ha] at h
    by_cases hstr : k ∉ s.strategies
    · simp [hstr] at h
    · have hmem : k ∈ s.strategies := not_not.mp hstr
      simp only [if_neg hstr] at h
      cases h1 : tokenXferIn s a with
      | error e => rw [h1] at h; simp at h
      | ok s1 =>
        rw [h1] at h
        obtain ⟨ha0, hav, rfl⟩ := tokenXferIn_ok h1
        simp only [Except.ok.injEq] at h
        subst h
        have hupd : borrowedSumL s.strategies
            (Function.update s.stratData k
              { s.stratData k with net_impact := (s.stratData k).net_impact + a }) =
            borrowedSumL s.strategies s.stratData -
              (s.stratData k).borrowed + (s.stratData k).borrowed :=
          borrowedSumL_update hmem _ _
        refine ⟨by simp; omega, by simp; omega, by simp; omega, by simpa using vsn,
          by simpa using esn, by simp; omega, by simp; omega,
          ?_, ?_, by simpa using rp, by simpa using prn⟩
        · simp only [borrowedSum] at acc ⊢
          simp only [hupd]
          omega
        · intro j
          by_cases hj : j = k
          · subst hj
            simp [Function.update_same]
            exact bn j
          · simpa [Function.update_noteq hj] using bn j

theorem constructVault_inv {lt : Nat} {pr mlr : Int} {strats : List Nat} {e0 : Int}
    {s0 : VaultState} (he : 0 ≤ e0)
    (h : constructVault lt pr mlr strats e0 = .ok s0) : Inv s0 := by
  unfold constructVault at h
  by_cases h1 : pr < 0 ∨ SCALAR_7 < pr
  · simp [h1] at h
  · simp only [if_neg h1] at h
    by_cases h2 : mlr < 0 ∨ SCALAR_7 < mlr
    · simp [h2] at h
    · simp only [if_neg h2] at h
      simp only [Except.ok.injEq] at h
      subst h
      push_neg at h1
      refine ⟨le_refl 0, rfl, by simp, le_refl 0, le_refl 0, le_refl 0, by simpa using he,
        ?_, fun k => le_refl 0, ?_, by simpa using h1.1⟩
      · simp [borrowedSum, borrowedSumL]
      · intro o r hor
        simp at hor

theorem step_preserves {s : VaultState} {op : Op} {s' : VaultState}
    (hI : Inv s) (h : step s op = .ok s') : Inv s' := by
  cases op with
  | deposit t =>
    simp only [step] at h
    cases hd : deposit s t with
    | error e => rw [hd] at h; simp [Except.map] at h
    | ok p =>
      obtain ⟨a, b⟩ := p
      rw [hd] at h
      simp [Except.map] at h
      subst h
      exact deposit_preserves hI hd
  | mint sh =>
    simp only [step] at h
    cases hd : mint s sh with
    | error e => rw [hd] at h; simp [Except.map] at h
    | ok p =>
      obtain ⟨a, b⟩ := p
      rw [hd] at h
      simp [Except.map] at h
      subst h
      exact mint_preserves hI hd
  | request_redeem sh owner now =>
    exact request_redeem_preserves hI h
  | redeem sh owner now =>
    simp only [step] at h
    cases hd : redeem s sh owner now with
    | error e => rw [hd] at h; simp [Except.map] at h
    | ok p =>
      obtain ⟨a, b⟩ := p
      rw [hd] at h
      simp [Except.map] at h
      subst h
      exact redeem_preserves hI hd
  | emergency_redeem owner now =>
    simp only [step] at h
    cases hd : emergency_redeem s owner now with
    | error e => rw [hd] at h; simp [Except.map] at h
    | ok p =>
      obtain ⟨a, b⟩ := p
      rw [hd] at h
      simp [Except.map] at h
      subst h
      exact emergency_redeem_preserves hI hd
  | cancel_redeem owner =>
    exact cancel_redeem_preserves hI h
  | borrow k a =>
    exact borrow_preserves hI h
  | repay k a =>
    exact repay_preserves hI h
  | transfer_to k a =>
    exact transfer_to_preserves hI h
  | transfer_from k a =>
    exact transfer_from_preserves hI h

theorem runOps_preserves {ops : List Op} :
    ∀ {s s' : VaultState}, Inv s → runOps s ops = .ok s' → Inv s' := by
  induction ops with
  | nil =>
    intro s s' hI h
    simp only [runOps, Except.ok.injEq] at h
    exact h ▸ hI
  | cons op rest ih =>
    intro s s' hI h
    simp only [runOps] at h
    cases hs : step s op with
    | error e => rw [hs] at h; simp at h
    | ok s1 =>
      rw [hs] at h
      exact ih (step_preserves hI hs) h

/-! ## Claim theorems -/

theorem calculate_min_liquidity_eq (T r : Int) :
    calculate_min_liquidity T r = fixedMulCeil T r SCALAR_7 := by
  unfold calculate_min_liquidity
  split
  next h => simp [h, fixedMulCeil]
  next => rfl

/-- C1: for every state with `total_shares > 0` and `total_tokens > 0` and every
share amount `sh > 0`, the tokens `Converter::tokens_from_shares` requires to
mint `sh` shares are at least the tokens `Converter::redemption_value` pays out
for redeeming `sh` shares; the inequality also holds in every bootstrap state
(`total_shares = 0` or `total_tokens = 0`). -/
theorem claim1_mint_cost_ge_redemption {S T sh : Int} (hsh : 0 < sh)
    (hcase : (0 < S ∧ 0 < T) ∨ S = 0 ∨ T = 0) :
    redemption_value S T sh ≤ tokens_from_shares S T sh := by
  rcases hcase with ⟨hS, hT⟩ | hS | hT
  · unfold redemption_value tokens_from_shares
    rw [if_neg hS.ne', if_neg (by push_neg; exact ⟨hS.ne', hT.ne'⟩)]
    exact fixedMulFloor_le_ceil hS
  · unfold redemption_value tokens_from_shares
    rw [if_pos hS, if_pos (Or.inl hS)]
    exact hsh.le
  · unfold redemption_value tokens_from_shares
    rw [if_pos (Or.inr hT)]
    by_cases hS : S = 0
    · rw [if_pos hS]; exact hsh.le
    · rw [if_neg hS]
      subst hT
      simpa [fixedMulFloor] using hsh.le

/-- Witness for C1 at the state of the `test_converter_rounding_behavior`
unit test (1000 shares, 1337 tokens, 100 shares converted). -/
theorem claim1_witness :
    (0 : Int) < 100 ∧ redemption_value 1000 1337 100 ≤ tokens_from_shares 1000 1337 100 :=
  ⟨by decide, claim1_mint_cost_ge_redemption (by decide) (Or.inl ⟨by decide, by decide⟩)⟩

/-- C2: along every sequence of successful vault operations starting from the
constructed state, the stored aggregates satisfy `total_shares ≥ 0` and
`total_tokens ≥ 0` after every operation (every intermediate state is the final
state of a prefix of the sequence), with the collaborator token transfers
failing on insufficient balance as modelled by the ledger helpers. -/
theorem claim2_aggregates_never_negative {lock_time : Nat}
    {penalty_rate min_liquidity_rate e0 : Int} {strats : List Nat}
    {s0 s' : VaultState} {ops : List Op} (he : 0 ≤ e0)
    (hc : constructVault lock_time penalty_rate min_liquidity_rate strats e0 = .ok s0)
    (hr : runOps s0 ops = .ok s') :
    0 ≤ s'.total_shares ∧ 0 ≤ s'.total_tokens :=
  have hI := runOps_preserves (constructVault_inv he hc) hr
  ⟨hI.shares_nonneg, hI.tokens_nonneg⟩

/-- Witness for C2: the constructed vault with 5 external tokens after a
deposit of 5. -/
theorem claim2_witness : 0 ≤ c2Final.total_shares ∧ 0 ≤ c2Final.total_tokens :=
  claim2_aggregates_never_negative (by decide)
    (show constructVault 3 0 0 [] 5 = .ok c2Init from rfl)
    (show runOps c2Init [Op.deposit 5] = .ok c2Final from rfl)

/-- C3 counterexample: a reachable state (the final state of `c3Ops` from the
constructed vault `c3Init`) stores a live request of 6 shares for owner 1
while `total_shares = 0`; there the claim's payout
`redemption_value - calculate_penalty` is non-positive, yet `emergency_redeem`
does not fail with `InvalidAmount` as claimed — `contract.rs` divides by
`total_shares` without the `Converter` guard, so the call traps with a host
division-by-zero error. -/
theorem claim3_counterexample :
    runOps c3Init c3Ops = .ok c3Stale ∧
    c3Stale.requests 1 = some ⟨6, 0⟩ ∧
    c3Stale.total_shares = 0 ∧
    redemption_value c3Stale.total_shares c3Stale.total_tokens 6 -
      calculate_penalty (redemption_value c3Stale.total_shares c3Stale.total_tokens 6)
        0 c3Stale.lock_time c3Stale.penalty_rate 5 ≤ 0 ∧
    emergency_redeem c3Stale 1 5 = .error .DivisionByZero ∧
    emergency_redeem c3Stale 1 5 ≠ .error .InvalidAmount := by
  refine ⟨rfl, by decide, by decide, by decide, rfl, ?_⟩
  simp [show emergency_redeem c3Stale 1 5 = Except.error VaultError.DivisionByZero from rfl]

/-- C3 as amended: for every owner with a stored redemption request,
`emergency_redeem` behaves as claimed whenever `total_shares` is nonzero:
it computes `current = redemption_value(request.shares)` at the current
aggregates and `penalty = calculate_penalty(current, ...)`, fails with
`InvalidAmount` when `current - penalty ≤ 0` (producing no successor state),
and on any success pays out exactly `current - penalty`, decrements
`total_shares` by the full `request.shares`, decrements `total_tokens` by only
the payout (the penalty remains in `total_tokens`), and deletes the request.
When `total_shares = 0` (reachable only through the partial-redemption escrow
bug leaving a stale request after the supply is exhausted) the unguarded
division in `contract.rs` instead traps with a host division-by-zero error. -/
theorem claim3_emergency_redeem_spec {s : VaultState} {owner now : Nat}
    {r : RedemptionRequest} (hreq : s.requests owner = some r) :
    (s.total_shares = 0 → emergency_redeem s owner now = .error .DivisionByZero) ∧
    (s.total_shares ≠ 0 →
      redemption_value s.total_shares s.total_tokens r.shares -
        calculate_penalty (redemption_value s.total_shares s.total_tokens r.shares)
          r.unlock_time s.lock_time s.penalty_rate now ≤ 0 →
      emergency_redeem s owner now = .error .InvalidAmount) ∧
    (∀ s' ret, emergency_redeem s owner now = .ok (s', ret) →
      ret = redemption_value s.total_shares s.total_tokens r.shares -
          calculate_penalty (redemption_value s.total_shares s.total_tokens r.shares)
            r.unlock_time s.lock_time s.penalty_rate now ∧
      s'.extTokens = s.extTokens + ret ∧
      s'.total_shares = s.total_shares - r.shares ∧
      s'.total_tokens = s.total_tokens - ret ∧
      s'.requests owner = none) := by
  refine ⟨?_, ?_, ?_⟩
  · intro hS0
    simp [emergency_redeem, hreq, fixedMulFloorChecked, hS0]
  · intro hSne hfail
    have hrv : redemption_value s.total_shares s.total_tokens r.shares =
        fixedMulFloor r.shares s.total_tokens s.total_shares := by
      unfold redemption_value
      rw [if_neg hSne]
    rw [hrv] at hfail
    unfold emergency_redeem
    rw [hreq]
    simp only []
    unfold fixedMulFloorChecked
    rw [if_neg hSne]
    simp only []
    rw [if_pos hfail]
  · intro s' ret h
    unfold emergency_redeem at h
    rw [hreq] at h
    simp only [] at h
    split at h
    next e hdiv => simp at h
    next cur hdiv =>
      obtain ⟨hSne, rfl⟩ := fixedMulFloorChecked_ok hdiv
      have hrv : redemption_value s.total_shares s.total_tokens r.shares =
          fixedMulFloor r.shares s.total_tokens s.total_shares := by
        unfold redemption_value
        rw [if_neg hSne]
      rw [hrv]
      split at h
      next => simp at h
      next hwpos =>
        split at h
        next e hburn => simp at h
        next s1 hburn =>
          obtain ⟨hb0, hbv, rfl⟩ := shareBurn_ok hburn
          split at h
          next e h2 => simp at h
          next s2 h2 =>
            obtain ⟨hw0, hwv, rfl⟩ := tokenXferOut_ok h2
            simp only [Except.ok.injEq, Prod.mk.injEq] at h
            obtain ⟨rfl, rfl⟩ := h
            refine ⟨rfl, by simp, by simp, by simp, by simp [Function.update_same]⟩

/-- Witness for C3: emergency redemption of the pending 10-share request at
time 0 (full remaining lock, 10% penalty rate) pays out 9 of the 10 tokens,
burns all 10 shares, keeps the 1-token penalty in `total_tokens`, and deletes
the request. -/
theorem claim3_witness :
    reqEmergency.2 = 9 ∧
    reqEmergency.1.extTokens = 9 ∧
    reqEmergency.1.total_shares = 0 ∧
    reqEmergency.1.total_tokens = 1 ∧
    reqEmergency.1.requests 1 = none := by
  have h := (@claim3_emergency_redeem_spec reqState 1 0 ⟨10, 5⟩
    rfl).2.2 reqEmergency.1 reqEmergency.2 rfl
  exact ⟨by rw [h.1]; decide, by rw [h.2.1, h.1]; decide, by rw [h.2.2.1]; decide,
    by rw [h.2.2.2.1, h.1]; decide, h.2.2.2.2⟩

/-- C4: for every positive amount and authorized strategy, `borrow` fails with
`InsufficientVaultBalance` whenever the amount exceeds
`vault_balance - calculate_min_liquidity(total_tokens, min_liquidity_rate)`
(where `vault_balance` is the contract's on-hand token balance), and succeeds
when the amount equals exactly that available liquidity. -/
theorem claim4_borrow_liquidity_guard :
    (∀ s k a, 0 < a → k ∈ s.strategies →
      s.vaultTokens - calculate_min_liquidity s.total_tokens s.min_liquidity_rate < a →
      borrow s k a = .error .InsufficientVaultBalance) ∧
    (∀ s k a, 0 < a → k ∈ s.strategies → 0 ≤ s.total_tokens → 0 ≤ s.min_liquidity_rate →
      a = s.vaultTokens - calculate_min_liquidity s.total_tokens s.min_liquidity_rate →
      ∃ s', borrow s k a = .ok s') := by
  constructor
  · intro s k a ha hk hover
    rw [calculate_min_liquidity_eq] at hover
    unfold borrow
    rw [if_neg (by omega), if_neg (not_not_intro hk)]
    by_cases h1 : s.vaultTokens ≤ fixedMulCeil s.total_tokens s.min_liquidity_rate SCALAR_7
    · rw [if_pos h1]
    · rw [if_neg h1, if_pos (by omega)]
  · intro s k a ha hk hT hr heq
    rw [calculate_min_liquidity_eq] at heq
    have hreq : 0 ≤ fixedMulCeil s.total_tokens s.min_liquidity_rate SCALAR_7 :=
      fixedMulCeil_nonneg hT hr (by norm_num [SCALAR_7])
    unfold borrow
    rw [if_neg (by omega), if_neg (not_not_intro hk), if_neg (by omega), if_neg (by omega)]
    unfold tokenXferOut
    rw [if_neg (by omega), if_neg (by omega)]
    exact ⟨_, rfl⟩

/-- Witness for C4: in the example state (balance 10, zero minimum-liquidity
rate) a borrow of 11 exceeds the available liquidity and fails, while a borrow
of exactly 10 (the boundary) succeeds. -/
theorem claim4_witness :
    borrow exState 0 11 = .error .InsufficientVaultBalance ∧
    ∃ s', borrow exState 0 10 = .ok s' :=
  ⟨claim4_borrow_liquidity_guard.1 exState 0 11 (by decide) (by decide) (by decide),
   claim4_borrow_liquidity_guard.2 exState 0 10 (by decide) (by decide) (by decide)
     (by decide) (by decide)⟩

/-- C5: successful `borrow` and `repay` leave the stored `total_tokens`
unchanged; a successful `transfer_to` decreases `total_tokens` by exactly the
amount and decreases the strategy's `net_impact` by the amount; a successful
`transfer_from` increases both by exactly the amount. -/
theorem claim5_strategy_isolation :
    (∀ s k a s', borrow s k a = .ok s' → s'.total_tokens = s.total_tokens) ∧
    (∀ s k a s', repay s k a = .ok s' → s'.total_tokens = s.total_tokens) ∧
    (∀ s k a s', transfer_to s k a = .ok s' →
      s'.total_tokens = s.total_tokens - a ∧
      (s'.stratData k).net_impact = (s.stratData k).net_impact - a) ∧
    (∀ s k a s', transfer_from s k a = .ok s' →
      s'.total_tokens = s.total_tokens + a ∧
      (s'.stratData k).net_impact = (s.stratData k).net_impact + a) := by
  refine ⟨?_, ?_, ?_, ?_⟩
  · intro s k a s' h
    unfold borrow at h
    by_cases ha : a ≤ 0
    · simp [ha] at h
    · simp only [if_neg ha] at h
      by_cases hstr : k ∉ s.strategies
      · simp [hstr] at h
      · simp only [if_neg hstr] at h
        split at h
        next => simp at h
        next =>
          split at h
          next => simp at h
          next =>
            cases h1 : tokenXferOut s a with
            | error e => rw [h1] at h; simp at h
            | ok s1 =>
              rw [h1] at h
              obtain ⟨_, _, rfl⟩ := tokenXferOut_ok h1
              simp only [Except.ok.injEq] at h
              subst h
              simp
  · intro s k a s' h
    unfold repay at h
    by_cases ha : a ≤ 0
    · simp [ha] at h
    · simp only [if_neg ha] at h
      by_cases hstr : k ∉ s.strategies
      · simp [hstr] at h
      · simp only [if_neg hstr] at h
        by_cases hover : (s.stratData k).borrowed < a
        · simp [hover] at h
        · simp only [if_neg hover] at h
          cases h1 : tokenXferIn s a with
          | error e => rw [h1] at h; simp at h
          | ok s1 =>
            rw [h1] at h
            obtain ⟨_, _, rfl⟩ := tokenXferIn_ok h1
            simp only [Except.ok.injEq] at h
            subst h
            simp
  · intro s k a s' h
    unfold transfer_to at h
    by_cases ha : a ≤ 0
    · simp [ha] at h
    · simp only [if_neg ha] at h
      by_cases hstr : k ∉ s.strategies
      · simp [hstr] at h
      · simp only [if_neg hstr] at h
        cases h1 : tokenXferOut s a with
        | error e => rw [h1] at h; simp at h
        | ok s1 =>
          rw [h1] at h
          obtain ⟨_, _, rfl⟩ := tokenXferOut_ok h1
          simp only [Except.ok.injEq] at h
          subst h
          exact ⟨by simp, by simp [Function.update_same]⟩
  · intro s k a s' h
    unfold transfer_from at h
    by_cases ha : a ≤ 0
    · simp [ha] at h
    · simp only [if_neg ha] at h
      by_cases hstr : k ∉ s.strategies
      · simp [hstr] at h
      · simp only [if_neg hstr] at h
        cases h1 : tokenXferIn s a with
        | error e => rw [h1] at h; simp at h
        | ok s1 =>
          rw [h1] at h
          obtain ⟨_, _, rfl⟩ := tokenXferIn_ok h1
          simp only [Except.ok.injEq] at h
          subst h
          exact ⟨by simp, by simp [Function.update_same]⟩

/-- Witness for C5: a concrete `borrow` of 5 keeps `total_tokens` at 10, and a
concrete `transfer_to` of 5 lowers it to 5 and the strategy's `net_impact`
to `-5`. -/
theorem claim5_witness :
    exBorrow.total_tokens = exState.total_tokens ∧
    exTransferTo.total_tokens = exState.total_tokens - 5 ∧
    (exTransferTo.stratData 0).net_impact = (exState.stratData 0).net_impact - 5 :=
  ⟨claim5_strategy_isolation.1 exState 0 5 exBorrow rfl,
   (claim5_strategy_isolation.2.2.1 exState 0 5 exTransferTo rfl).1,
   (claim5_strategy_isolation.2.2.1 exState 0 5 exTransferTo rfl).2⟩

/-- C6: `calculate_penalty` returns 0 whenever `now ≥ unlock_time`; otherwise it
returns `floor(token_value * floor(penalty_rate * (unlock_time - now) / lock_time)
/ SCALAR_7)`; as a function of `now` it is non-increasing, equals exactly
`floor(token_value * penalty_rate / SCALAR_7)` at `now = unlock_time - lock_time`,
and equals exactly 0 at `now = unlock_time`. -/
theorem claim6_calculate_penalty_spec {tv pr : Int} {unlock lock : Nat}
    (htv : 0 ≤ tv) (hpr : 0 ≤ pr) :
    (∀ now, unlock ≤ now → calculate_penalty tv unlock lock pr now = 0) ∧
    (∀ now, now < unlock → calculate_penalty tv unlock lock pr now =
      fixedMulFloor tv
        (fixedMulFloor pr ((unlock - now : Nat) : Int) (lock : Int)) SCALAR_7) ∧
    (∀ now1 now2, now1 ≤ now2 →
      calculate_penalty tv unlock lock pr now2 ≤ calculate_penalty tv unlock lock pr now1) ∧
    (0 < lock → lock ≤ unlock →
      calculate_penalty tv unlock lock pr (unlock - lock) = fixedMulFloor tv pr SCALAR_7) ∧
    calculate_penalty tv unlock lock pr unlock = 0 := by
  refine ⟨?_, ?_, ?_, ?_, ?_⟩
  · intro now h
    unfold calculate_penalty
    rw [if_pos h]
  · intro now h
    unfold calculate_penalty
    rw [if_neg (by omega)]
  · intro n1 n2 h12
    by_cases h2 : unlock ≤ n2
    · unfold calculate_penalty
      rw [if_pos h2]
      split
      · exact le_refl 0
      · exact fixedMulFloor_nonneg htv
          (fixedMulFloor_nonneg hpr (by omega) (by omega)) (by norm_num [SCALAR_7])
    · have h1 : ¬ unlock ≤ n1 := by omega
      unfold calculate_penalty
      rw [if_neg h1, if_neg h2]
      refine fixedMulFloor_mono_middle htv (by norm_num [SCALAR_7]) ?_
      exact fixedMulFloor_mono_middle hpr (by omega) (by omega)
  · intro hl hlu
    unfold calculate_penalty
    rw [if_neg (by omega)]
    have hsub : ((unlock - (unlock - lock) : Nat) : Int) = (lock : Int) := by omega
    rw [hsub]
    have hinner : fixedMulFloor pr (lock : Int) (lock : Int) = pr := by
      unfold fixedMulFloor
      exact Int.mul_fdiv_cancel pr (by omega)
    rw [hinner]
  · unfold calculate_penalty
    rw [if_pos (le_refl unlock)]

/-- Witness for C6 with the numbers of the `test_penalty_calculation_linear_decay`
unit test: value 1000·SCALAR_7, 10% rate, lock 300, unlock 1300. -/
theorem claim6_witness :
    calculate_penalty 10000000000 1300 300 1000000 1300 = 0 ∧
    calculate_penalty 10000000000 1300 300 1000000 1000 = 1000000000 := by
  constructor
  · exact (claim6_calculate_penalty_spec (by decide) (by decide)).2.2.2.2
  · have h := (@claim6_calculate_penalty_spec 10000000000 1000000 1300 300
      (by decide) (by decide)).2.2.2.1 (by decide) (by decide)
    have he : (1300 - 300 : Nat) = 1000 := by decide
    rw [he] at h
    rw [h]
    decide

/-- C7 counterexample: from the reachable state `c7Mid` (3 shares, 10 tokens),
depositing `t = 4` tokens mints 1 share; requesting redemption of that whole
share and redeeming it in full after the unlock time pays back only 3 tokens,
not 4 — with no strategy operation and no other depositor activity between the
deposit and the redemption. -/
theorem claim7_counterexample :
    (deposit c7Mid 4).map Prod.snd = .ok 1 ∧
    (redeem c7Requested 1 1 50).map Prod.snd = .ok 3 ∧ (3 : Int) ≠ 4 := by
  refine ⟨rfl, rfl, by decide⟩

/-- C7 as amended: the round trip is exact when the cycle starts from the
freshly constructed (empty) vault. -/
theorem claim7_amended {lock_time owner now1 now2 : Nat}
    {penalty_rate min_liquidity_rate e0 t : Int} {strats : List Nat}
    {s0 : VaultState}
    (hc : constructVault lock_time penalty_rate min_liquidity_rate strats e0 = .ok s0)
    (ht : 0 < t) (hte : t ≤ e0) (hnow : now1 + lock_time ≤ now2) :
    ((deposit s0 t).bind fun p =>
      (request_redeem p.1 t owner now1).bind fun s2 =>
      (redeem s2 t owner now2).map Prod.snd) = .ok t := by
  unfold constructVault at hc
  split at hc
  next => simp at hc
  next h1 =>
    split at hc
    next => simp at hc
    next h2 =>
      simp only [Except.ok.injEq] at hc
      subst hc
      have hnt : ¬ t ≤ 0 := by omega
      have hnt2 : ¬ t < 0 := by omega
      have het : ¬ e0 < t := by omega
      have hlk : ¬ now2 < now1 + lock_time := by omega
      have htne : t ≠ 0 := by omega
      simp [deposit, tokenXferIn, shareMint, request_redeem, shareXferIn, redeem,
        fixedMulFloorChecked, shareBurn, tokenXferOut, Except.bind, Except.map,
        hnt, hnt2, het, hlk, htne,
        Function.update_same, fixedMulFloor, Int.mul_fdiv_cancel _ htne]

/-- Witness for the amended C7: a deposit of 5 into the empty vault,
requested at time 0 and redeemed at time 3, returns exactly 5. -/
theorem claim7_amended_witness :
    ((deposit c2Init 5).bind fun p =>
      (request_redeem p.1 5 1 0).bind fun s2 =>
      (redeem s2 5 1 3).map Prod.snd) = .ok 5 :=
  claim7_amended (show constructVault 3 0 0 [] 5 = .ok c2Init from rfl)
    (by decide) (by decide) (by decide)

/-- C8: `redeem` fails with the distinct not-found error `MissingRequest` when
the owner has no stored request, with `WithdrawalLocked` when
`now < request.unlock_time`, and with `InsufficientShares` when the requested
share amount exceeds `request.shares`; on success with `shares =
request.shares` it deletes the request, and with `shares < request.shares` it
shrinks the stored request to `request.shares - shares` (keeping
`unlock_time`) and transfers the un-redeemed shares back to the owner's
spendable (external) balance. -/
theorem claim8_redeem_spec :
    (∀ s sh (owner now : Nat), s.requests owner = none →
      redeem s sh owner now = .error .MissingRequest) ∧
    (∀ s sh (owner now : Nat) r, s.requests owner = some r → now < r.unlock_time →
      redeem s sh owner now = .error .WithdrawalLocked) ∧
    (∀ s sh (owner now : Nat) r, s.requests owner = some r → ¬ now < r.unlock_time →
      r.shares < sh → redeem s sh owner now = .error .InsufficientShares) ∧
    (∀ s sh (owner now : Nat) r s' ret, s.requests owner = some r → sh = r.shares →
      redeem s sh owner now = .ok (s', ret) → s'.requests owner = none) ∧
    (∀ s sh (owner now : Nat) r s' ret, s.requests owner = some r → sh < r.shares →
      redeem s sh owner now = .ok (s', ret) →
      s'.requests owner = some ⟨r.shares - sh, r.unlock_time⟩ ∧
      s'.extShares = s.extShares + (r.shares - sh)) := by
  refine ⟨?_, ?_, ?_, ?_, ?_⟩
  · intro s sh owner now hnone
    unfold redeem
    rw [hnone]
  · intro s sh owner now r hreq hlock
    unfold redeem
    rw [hreq]
    simp only []
    rw [if_pos hlock]
  · intro s sh owner now r hreq hlock hover
    unfold redeem
    rw [hreq]
    simp only []
    rw [if_neg hlock, if_pos hover]
  · intro s sh owner now r s' ret hreq hfull h
    unfold redeem at h
    rw [hreq] at h
    simp only [] at h
    split at h
    next => simp at h
    next hlock =>
      split at h
      next => simp at h
      next hover =>
        split at h
        next e hdiv => simp at h
        next tok hdiv =>
          obtain ⟨hSne, rfl⟩ := fixedMulFloorChecked_ok hdiv
          split at h
          next e hburn => simp at h
          next s1 hburn =>
            obtain ⟨hb0, hbv, rfl⟩ := shareBurn_ok hburn
            split at h
            next e h2 => simp at h
            next s2 h2 =>
              obtain ⟨hw0, hwv, rfl⟩ := tokenXferOut_ok h2
              simp only [Except.ok.injEq, Prod.mk.injEq] at h
              obtain ⟨rfl, rfl⟩ := h
              simp [Function.update_same]
  · intro s sh owner now r s' ret hreq hpart h
    unfold redeem at h
    rw [hreq] at h
    simp only [] at h
    split at h
    next => simp at h
    next hlock =>
      split at h
      next => simp at h
      next hover =>
        split at h
        next e hdiv => simp at h
        next tok hdiv =>
          obtain ⟨hSne, rfl⟩ := fixedMulFloorChecked_ok hdiv
          split at h
          next e hburn => simp at h
          next s1 hburn =>
            obtain ⟨hb0, hbv, rfl⟩ := shareBurn_ok hburn
            split at h
            next e h2 => simp at h
            next s2 h2 =>
              obtain ⟨hw0, hwv, rfl⟩ := tokenXferOut_ok h2
              split at h
              next hif => exact absurd hif (by omega)
              next hif =>
                simp only [] at h
                split at h
                next e h3 => simp at h
                next s5 h3 =>
                  obtain ⟨hr0, hrv, rfl⟩ := shareXferOut_ok h3
                  simp only [Except.ok.injEq, Prod.mk.injEq] at h
                  obtain ⟨rfl, rfl⟩ := h
                  exact ⟨by simp [Function.update_same], by simp⟩

/-- Witness for C8: partially redeeming 4 of the 10 requested shares at time 7
shrinks the stored request to 6 shares (unlock time kept) and returns the 6
un-redeemed shares to the external balance; redeeming at time 3 fails with
`WithdrawalLocked`, and owner 2 (no request) fails with `MissingRequest`. -/
theorem claim8_witness :
    reqPartial.1.requests 1 = some ⟨6, 5⟩ ∧
    reqPartial.1.extShares = 6 ∧
    redeem reqState 4 2 7 = .error .MissingRequest ∧
    redeem reqState 4 1 3 = .error .WithdrawalLocked ∧
    redeem reqState 11 1 7 = .error .InsufficientShares := by
  have h5 := claim8_redeem_spec.2.2.2.2 reqState 4 1 7 ⟨10, 5⟩
    reqPartial.1 reqPartial.2 rfl (by decide) rfl
  exact ⟨h5.1, h5.2, claim8_redeem_spec.1 reqState 4 2 7 rfl,
    claim8_redeem_spec.2.1 reqState 4 1 3 ⟨10, 5⟩ rfl (by decide),
    claim8_redeem_spec.2.2.1 reqState 11 1 7 ⟨10, 5⟩ rfl (by decide) (by decide)⟩

/-- C9: `deposit` with `tokens ≤ 0` fails with `ZeroAmount` before any state
mutation or transfer (the check is the first statement and no successor state
is produced), and for `tokens > 0` the `ZeroAmount` error is never raised. -/
theorem claim9_deposit_zero_amount :
    (∀ s t, t ≤ 0 → deposit s t = .error .ZeroAmount) ∧
    (∀ s t, 0 < t → deposit s t ≠ .error .ZeroAmount) := by
  constructor
  · intro s t ht
    unfold deposit
    rw [if_pos ht]
  · intro s t ht h
    unfold deposit at h
    simp only [if_neg (show ¬ t ≤ 0 by omega)] at h
    cases h1 : tokenXferIn s t with
    | error e =>
      rw [h1] at h
      simp at h
      subst h
      unfold tokenXferIn at h1
      split at h1
      · simp at h1
      · split at h1
        · simp at h1
        · simp at h1
    | ok s1 =>
      rw [h1] at h
      simp only [] at h
      cases h2 : shareMint s1 (if s.total_shares = 0 ∨ s.total_tokens = 0 then t
          else fixedMulFloor t s.total_shares s.total_tokens) with
      | error e =>
        rw [h2] at h
        simp at h
        subst h
        unfold shareMint at h2
        split at h2 <;> split at h2 <;> simp_all
      | ok s2 =>
        rw [h2] at h
        simp at h

/-- Witness for C9: depositing 0 into the example state fails with
`ZeroAmount`, and depositing 5 does not raise `ZeroAmount`. -/
theorem claim9_witness :
    deposit exState 0 = .error .ZeroAmount ∧
    deposit exState 5 ≠ .error .ZeroAmount :=
  ⟨claim9_deposit_zero_amount.1 exState 0 (by decide),
   claim9_deposit_zero_amount.2 exState 5 (by decide)⟩

/-- C10: the escrow invariant (the contract's share-token balance covers the
sum of shares recorded in live redemption requests) is not preserved by
partial redemption.  Before owner 1's partial redemption the contract holds
20 escrowed shares against requests of 10 + 10; redeeming 4 of owner 1's 10
leaves a stored request of 6 while simultaneously transferring those 6 shares
back to the external (owner) balance, so the contract holds only 10 shares
against live requests totalling 16.  A later `cancel_redeem` by owner 1 then
moves 6 share tokens the contract no longer holds in escrow for owner 1,
after which owner 2's fully unlocked redemption of 10 fails on the share
token's insufficient-balance check. -/
theorem claim10_partial_redeem_breaks_escrow :
    c10Mid.vaultShares = 20 ∧
    c10Mid.requests 1 = some ⟨10, 10⟩ ∧
    c10Mid.requests 2 = some ⟨10, 10⟩ ∧
    c10Partial.requests 1 = some ⟨6, 10⟩ ∧
    c10Partial.extShares = c10Mid.extShares + 6 ∧
    c10Partial.vaultShares = 10 ∧
    c10Partial.vaultShares < 6 + 10 ∧
    c10Cancelled.vaultShares = 4 ∧
    step c10Cancelled (.redeem 10 2 60) = .error .InsufficientBalance := by
  refine ⟨by decide, by decide, by decide, by decide, by decide, by decide,
    by decide, by decide, rfl⟩

end SorobanVault
